import Mathlib

/-!
Verification of the causality / specification-mining core
(`causality.py`): message model, causality predicate, graph builder,
depth-bounded sequence enumerator, sequence projector and pair filter.

Python dictionaries are modelled as association lists (key order =
insertion order); Python sets of ids as duplicate-free lists (order
immaterial to every property proved here); a raised `KeyError` is
modelled as an `Option` result of `none`.
-/

/-- Direction of a message: either a REQuest or a RESPonse. -/
inductive Direction where
  | REQ
  | RESP
deriving DecidableEq, Repr

/-- Position of a message in a sequence: INITIAL, INTERMEDIARY or FINAL. -/
inductive Position where
  | INITIAL
  | INTERMEDIARY
  | FINAL
deriving DecidableEq, Repr

/-- A message record: id, origin, destination, operation, direction, position. -/
structure Message where
  id : Int
  origin : String
  destination : String
  operation : String
  direction : Direction
  position : Position
deriving DecidableEq, Repr

/-- A library maps message ids to messages (a Python dict, as an assoc list). -/
abbrev Library := List (Int × Message)

/-- A causal graph maps message ids to the set of ids they may directly cause
(a Python `dict[int, set[int]]`; each set is a duplicate-free list). -/
abbrev Graph := List (Int × List Int)

/-- Predicate `causal(a, b)`: whether message `a` can cause message `b`.  The source
lists every possible failure and inverts the disjunction; the commented-out
operation-name check of the source is disabled, so `operation` is not read. -/
def causal (a b : Message) : Bool :=
  !((a.direction == Direction.RESP && b.direction == Direction.REQ)
    || (a.destination != b.origin)
    || (a.position == Position.FINAL)
    || (b.position == Position.INITIAL)
    || (a.id == b.id))

/-- Python's `set.add`: insert an element unless already present. -/
def setAdd (s : List Int) (x : Int) : List Int :=
  if s.contains x then s else s ++ [x]

/-- Inner loop of `build_relationships`: for each `b_id` in `keys`, look up
`library[b_id]` (a missing key is a `KeyError`, i.e. `none`) and add `b_id`
to the adjacency set `s` when `causal a b` holds. -/
def addTargets (a : Message) (library : Library) : List Int → List Int → Option (List Int)
  | [], s => some s
  | b_id :: rest, s =>
    match library.lookup b_id with
    | none => none
    | some b => addTargets a library rest (if causal a b then setAdd s b_id else s)

/-- Outer loop of `build_relationships`: rebuild each row `(a_id, s)` of the
graph by running the inner loop over all keys, after looking up
`library[a_id]`. -/
def buildRows (keys : List Int) (library : Library) : Graph → Option Graph
  | [] => some []
  | (a_id, s) :: rest =>
    match library.lookup a_id with
    | none => none
    | some a =>
      match addTargets a library keys s with
      | none => none
      | some s' =>
        match buildRows keys library rest with
        | none => none
        | some rest' => some ((a_id, s') :: rest')

/-- Function `build_relationships(graph, library)`: for every ordered pair of graph
keys `(a_id, b_id)`, add `b_id` to `graph[a_id]` when
`causal(library[a_id], library[b_id])` holds.  A key of `graph` missing from
`library` raises `KeyError` (`none`). -/
def build_relationships (graph : Graph) (library : Library) : Option Graph :=
  buildRows (graph.map Prod.fst) library graph

/-- Python's `list.index`: index of the first occurrence (callers guard
membership, so the out-of-range value is never reached in `pair_filter`). -/
def listIndex (sequence : List Int) (x : Int) : Nat :=
  match sequence with
  | [] => 0
  | y :: ys => if y == x then 0 else listIndex ys x + 1

/-- Function `pair_filter(sequence, a, b)`: if both `a` and `b` occur, they must be
immediately adjacent in order `a` then `b` (first-occurrence indices); if
exactly one occurs, false; if neither occurs, true. -/
def pair_filter (sequence : List Int) (a b : Int) : Bool :=
  if sequence.contains a && sequence.contains b then
    listIndex sequence a + 1 == listIndex sequence b
  else if sequence.contains a || sequence.contains b then
    false
  else
    true

/-- Sequential monadic concatenation: run `f` on each element in order and
append the resulting sequence lists; a `none` (raised error) aborts the
whole computation, as an exception aborts the Python `for` loop. -/
def seqAppendM (f : Int → Option (List (List Int))) : List Int → Option (List (List Int))
  | [] => some []
  | x :: rest =>
    match f x with
    | none => none
    | some l₁ =>
      match seqAppendM f rest with
      | none => none
      | some l₂ => some (l₁ ++ l₂)

/-- Fuelled form of `recursive_build_sequences`.  The fuel only bounds the
recursion depth so that the definition is structural; every claim proved
below holds for all fuel values, and the wrapper passes fuel strictly larger
than the remaining depth budget `max_depth - len(accumulated)`, which the
depth check makes sufficient.  The result is the list of sequences this call
appends to `sequence_destination`, in emission order; `none` is a raised
`KeyError`. -/
def rbsFuel : Nat → Int → List Int → Int → Graph → Library → Option (List (List Int))
  | 0, _, _, _, _, _ => none
  | fuel + 1, starting_id, accumulated, max_depth, graph, library =>
    if accumulated.contains starting_id then some []
    else
      let new_accumulation := accumulated ++ [starting_id]
      if max_depth < (new_accumulation.length : Int) then some []
      else
        match library.lookup starting_id with
        | none => none
        | some msg =>
          if msg.position = Position.FINAL then some [new_accumulation]
          else
            match graph.lookup starting_id with
            | none => none
            | some succs =>
              seqAppendM
                (fun next_id => rbsFuel fuel next_id new_accumulation max_depth graph library)
                succs

/-- Function `recursive_build_sequences(starting_id, accumulated, dest, max_depth,
graph, library)`: rule out cyclic cases, extend the accumulation, cut when
the length exceeds `max_depth`, emit at a FINAL message, otherwise recurse
over `graph[starting_id]`.  Returned value = what the call appends to
`dest`. -/
def recursive_build_sequences (starting_id : Int) (accumulated : List Int)
    (max_depth : Int) (graph : Graph) (library : Library) : Option (List (List Int)) :=
  rbsFuel ((max_depth - accumulated.length).toNat + 1) starting_id accumulated
    max_depth graph library

/-- Function `build_sequences(starting_id, max_depth, graph, library)`: run the
recursive builder from an empty accumulation and return the destination
list. -/
def build_sequences (starting_id : Int) (max_depth : Int)
    (graph : Graph) (library : Library) : Option (List (List Int)) :=
  recursive_build_sequences starting_id [] max_depth graph library

/-- Loop of `generate_all_sequences`: for every id in `keys` (the library
keys, in order) whose message has position INITIAL, run `build_sequences`
and concatenate the results. -/
def gasLoop (library : Library) (graph : Graph) (max_depth : Int) :
    List Int → Option (List (List Int))
  | [] => some []
  | k :: rest =>
    match library.lookup k with
    | none => none
    | some msg =>
      if msg.position = Position.INITIAL then
        match build_sequences k max_depth graph library with
        | none => none
        | some s =>
          match gasLoop library graph max_depth rest with
          | none => none
          | some r => some (s ++ r)
      else gasLoop library graph max_depth rest

/-- Function `generate_all_sequences(library, graph, max_depth)`: run
`build_sequences` once per INITIAL-position message of the library and
concatenate the results. -/
def generate_all_sequences (library : Library) (graph : Graph)
    (max_depth : Int) : Option (List (List Int)) :=
  gasLoop library graph max_depth (library.map Prod.fst)

/-- Relation used by `project_sequences`' final sort (`list.sort(key=len)`,
a stable ascending sort by length). -/
def lenLE (x y : List Int) : Prop := x.length ≤ y.length

instance : DecidableRel lenLE := fun x y => Nat.decLe x.length y.length

instance : IsTotal (List Int) lenLE := ⟨fun x y => Nat.le_total x.length y.length⟩

instance : IsTrans (List Int) lenLE := ⟨fun _ _ _ h₁ h₂ => Nat.le_trans h₁ h₂⟩

/-- Loop body of `project_sequences`' accumulation: filter one sequence by
the whitelist (order preserved), append it only when more than one element
survives and it is not already present (first occurrence wins). -/
def projectStep (whitelist : List Int) (new_sequences : List (List Int))
    (sequence : List Int) : List (List Int) :=
  let new_sequence := sequence.filter (fun id => whitelist.contains id)
  if 1 < new_sequence.length ∧ new_sequence ∉ new_sequences then
    new_sequences ++ [new_sequence]
  else new_sequences

/-- Accumulation loop of `project_sequences` over all input sequences. -/
def project_collect (sequences : List (List Int)) (whitelist : List Int) : List (List Int) :=
  sequences.foldl (projectStep whitelist) []

/-- Function `project_sequences(sequences, whitelist)`: whitelist-filter each
sequence, drop results shorter than 2, deduplicate keeping first
occurrences, then sort ascending by length with Python's stable
`list.sort(key=len)` (a stable ascending sort equals `insertionSort` under
`lenLE`). -/
def project_sequences (sequences : List (List Int)) (whitelist : List Int) : List (List Int) :=
  List.insertionSort lenLE (project_collect sequences whitelist)

example : causal
    ⟨1, "X", "Y", "login", Direction.REQ, Position.INITIAL⟩
    ⟨2, "Y", "X", "login-ack", Direction.RESP, Position.FINAL⟩ = true := by decide

example : causal
    ⟨2, "Y", "X", "login-ack", Direction.RESP, Position.FINAL⟩
    ⟨1, "X", "Y", "login", Direction.REQ, Position.INITIAL⟩ = false := by decide

/-- Concrete scenario from the design notes: three messages. -/
def exLibrary : Library :=
  [(1, ⟨1, "X", "Y", "login", Direction.REQ, Position.INITIAL⟩),
   (2, ⟨2, "Y", "X", "login-ack", Direction.RESP, Position.FINAL⟩),
   (3, ⟨3, "X", "Z", "ping", Direction.REQ, Position.INITIAL⟩)]

/-- Empty graph skeleton over the scenario library's ids. -/
def exGraph0 : Graph := [(1, []), (2, []), (3, [])]

/-- The scenario graph after `build_relationships`. -/
def exGraph : Graph := [(1, [2]), (2, []), (3, [])]

example : build_relationships exGraph0 exLibrary = some exGraph := by decide
example : build_relationships exGraph exLibrary = some exGraph := by decide
example : generate_all_sequences exLibrary exGraph 2 = some [[1, 2]] := by decide
example : build_sequences 1 2 exGraph exLibrary = some [[1, 2]] := by decide
example : build_sequences 1 0 exGraph exLibrary = some [] := by decide
example : build_sequences 7 2 exGraph exLibrary = none := by decide
example : project_sequences [[1, 2, 3], [2, 3], [1, 3]] [1, 2, 3] =
    [[2, 3], [1, 3], [1, 2, 3]] := by decide

example : pair_filter [1, 2, 3] 1 2 = true := by decide
example : pair_filter [1, 3, 2] 1 2 = false := by decide
example : pair_filter [1, 3] 1 2 = false := by decide
example : pair_filter [3, 4] 1 2 = true := by decide
example : pair_filter [1, 2] 2 2 = false := by decide


/-! ## Helper lemmas: association-list lookups -/

theorem lookup_of_mem_keys {β : Type} (k : Int) (l : List (Int × β))
    (h : k ∈ l.map Prod.fst) : ∃ v, List.lookup k l = some v := by
  induction l with
  | nil => simp at h
  | cons p rest ih =>
    rw [List.lookup]
    rcases hk : k == p.fst with _ | _
    · have hne : k ≠ p.fst := by simpa using hk
      simp only [List.map, List.mem_cons] at h
      exact ih (h.resolve_left hne)
    · exact ⟨p.snd, rfl⟩

theorem mem_of_lookup_eq_some {β : Type} {k : Int} {v : β} {l : List (Int × β)}
    (h : List.lookup k l = some v) : (k, v) ∈ l := by
  induction l with
  | nil => simp [List.lookup] at h
  | cons p rest ih =>
    rw [List.lookup] at h
    rcases hk : k == p.fst with _ | _
    · rw [hk] at h
      exact List.mem_cons_of_mem _ (ih h)
    · rw [hk] at h
      cases h
      have hkp : k = p.fst := by simpa using hk
      exact hkp ▸ List.mem_cons_self _ _

/-! ## Helper lemmas: the sequence enumerator -/

theorem seqAppendM_mem {f : Int → Option (List (List Int))} :
    ∀ {l : List Int} {out : List (List Int)}, seqAppendM f l = some out →
      ∀ {s : List Int}, s ∈ out → ∃ x ∈ l, ∃ o, f x = some o ∧ s ∈ o := by
  intro l
  induction l with
  | nil =>
    intro out h s hs
    rw [seqAppendM] at h
    cases h
    simp at hs
  | cons x rest ih =>
    intro out h s hs
    rw [seqAppendM] at h
    rcases hfx : f x with _ | l₁
    · rw [hfx] at h
      cases h
    · rw [hfx] at h
      rcases hrest : seqAppendM f rest with _ | l₂
      · rw [hrest] at h
        cases h
      · rw [hrest] at h
        cases h
        rcases List.mem_append.mp hs with h₁ | h₂
        · exact ⟨x, List.mem_cons_self _ _, l₁, hfx, h₁⟩
        · obtain ⟨y, hy, o, ho, hso⟩ := ih hrest h₂
          exact ⟨y, List.mem_cons_of_mem _ hy, o, ho, hso⟩

theorem rbsFuel_inv (d : Int) (g : Graph) (l : Library) :
    ∀ (fuel : Nat) (id : Int) (acc : List Int) (out : List (List Int)),
      acc.Nodup → rbsFuel fuel id acc d g l = some out →
      ∀ s ∈ out,
        s.Nodup ∧ (s.length : Int) ≤ d ∧ (∃ t, s = acc ++ id :: t)
          ∧ ∃ z m, s.getLast? = some z ∧ List.lookup z l = some m
              ∧ m.position = Position.FINAL := by
  intro fuel
  induction fuel with
  | zero =>
    intro id acc out _ h
    rw [rbsFuel] at h
    cases h
  | succ fuel ih =>
    intro id acc out hnd h s hs
    rw [rbsFuel] at h
    by_cases hc : acc.contains id
    · rw [if_pos hc] at h
      cases h
      simp at hs
    · rw [if_neg hc] at h
      have hid : id ∉ acc := by simpa using hc
      by_cases hdep : d < ((acc ++ [id]).length : Int)
      · rw [if_pos hdep] at h
        cases h
        simp at hs
      · rw [if_neg hdep] at h
        rcases hl : List.lookup id l with _ | msg
        · rw [hl] at h
          cases h
        · simp only [hl] at h
          by_cases hf : msg.position = Position.FINAL
          · rw [if_pos hf] at h
            cases h
            simp only [List.mem_singleton] at hs
            subst hs
            refine ⟨?_, ?_, ⟨[], rfl⟩, id, msg, ?_, hl, hf⟩
            · simp [List.nodup_append, hnd, hid]
            · simpa using hdep
            · simp
          · rw [if_neg hf] at h
            rcases hg : List.lookup id g with _ | succs
            · rw [hg] at h
              cases h
            · rw [hg] at h
              obtain ⟨next, _, o, ho, hso⟩ := seqAppendM_mem h hs
              have hnd' : (acc ++ [id]).Nodup := by
                simp [List.nodup_append, hnd, hid]
              obtain ⟨snd, slen, ⟨t, ht⟩, z, m, hz, hzl, hzf⟩ :=
                ih next (acc ++ [id]) o hnd' ho s hso
              exact ⟨snd, slen, ⟨next :: t, by simp [ht]⟩, z, m, hz, hzl, hzf⟩

theorem gasLoop_mem (l : Library) (g : Graph) (d : Int) :
    ∀ (keys : List Int) (out : List (List Int)), gasLoop l g d keys = some out →
      ∀ s ∈ out,
        ∃ k ∈ keys, ∃ msg, List.lookup k l = some msg
          ∧ msg.position = Position.INITIAL
          ∧ ∃ o, build_sequences k d g l = some o ∧ s ∈ o := by
  intro keys
  induction keys with
  | nil =>
    intro out h s hs
    rw [gasLoop] at h
    cases h
    simp at hs
  | cons k rest ih =>
    intro out h s hs
    rw [gasLoop] at h
    rcases hl : List.lookup k l with _ | msg
    · rw [hl] at h
      cases h
    · simp only [hl] at h
      by_cases hini : msg.position = Position.INITIAL
      · rw [if_pos hini] at h
        rcases hb : build_sequences k d g l with _ | bs
        · rw [hb] at h
          cases h
        · rw [hb] at h
          rcases hr : gasLoop l g d rest with _ | rs
          · rw [hr] at h
            cases h
          · rw [hr] at h
            cases h
            rcases List.mem_append.mp hs with h₁ | h₂
            · exact ⟨k, List.mem_cons_self _ _, msg, hl, hini, bs, hb, h₁⟩
            · obtain ⟨y, hy, m, hml, hmi, o, ho, hso⟩ := ih rs hr s h₂
              exact ⟨y, List.mem_cons_of_mem _ hy, m, hml, hmi, o, ho, hso⟩
      · rw [if_neg hini] at h
        obtain ⟨y, hy, m, hml, hmi, o, ho, hso⟩ := ih out h s hs
        exact ⟨y, List.mem_cons_of_mem _ hy, m, hml, hmi, o, ho, hso⟩


theorem bs_depth_nonpos (start d : Int) (g : Graph) (l : Library) (hd : d ≤ 0) :
    build_sequences start d g l = some [] := by
  rw [build_sequences, recursive_build_sequences, rbsFuel]
  rw [if_neg (by simp)]
  rw [if_pos (by simp; omega)]

theorem gasLoop_empty_of (l : Library) (g : Graph) (d : Int)
    (hbs : ∀ k msg, List.lookup k l = some msg → msg.position = Position.INITIAL →
      build_sequences k d g l = some []) :
    ∀ keys : List Int, (∀ k ∈ keys, ∃ m, List.lookup k l = some m) →
      gasLoop l g d keys = some [] := by
  intro keys
  induction keys with
  | nil => intro; rw [gasLoop]
  | cons k rest ih =>
    intro hval
    obtain ⟨m, hm⟩ := hval k (List.mem_cons_self _ _)
    rw [gasLoop]
    simp only [hm]
    by_cases hini : m.position = Position.INITIAL
    · rw [if_pos hini, hbs k m hm hini, ih (fun k' hk' => hval k' (List.mem_cons_of_mem _ hk'))]
      rfl
    · rw [if_neg hini]
      exact ih (fun k' hk' => hval k' (List.mem_cons_of_mem _ hk'))

theorem gasLoop_no_initial (l : Library) (g : Graph) (d : Int)
    (hno : ∀ p ∈ l, (Prod.snd p).position ≠ Position.INITIAL) :
    ∀ keys : List Int, (∀ k ∈ keys, ∃ m, List.lookup k l = some m) →
      gasLoop l g d keys = some [] := by
  intro keys
  induction keys with
  | nil => intro; rw [gasLoop]
  | cons k rest ih =>
    intro hval
    obtain ⟨m, hm⟩ := hval k (List.mem_cons_self _ _)
    rw [gasLoop]
    simp only [hm]
    rw [if_neg (hno (k, m) (mem_of_lookup_eq_some hm))]
    exact ih (fun k' hk' => hval k' (List.mem_cons_of_mem _ hk'))

theorem addTargets_none (a : Message) (l : Library) :
    ∀ (keys s : List Int) (k : Int), k ∈ keys → List.lookup k l = none →
      addTargets a l keys s = none := by
  intro keys
  induction keys with
  | nil => intro s k hk; exact absurd hk (List.not_mem_nil _)
  | cons b rest ih =>
    intro s k hk hnone
    rw [addTargets]
    rcases hb : List.lookup b l with _ | vb
    · rfl
    · have hkb : k ≠ b := fun he => by rw [he, hb] at hnone; cases hnone
      simp only [hb]
      exact ih _ k ((List.mem_cons.mp hk).resolve_left hkb) hnone


/-! ## Helper lemmas: the graph builder -/

theorem mem_setAdd {s : List Int} {x y : Int} : y ∈ setAdd s x ↔ y ∈ s ∨ y = x := by
  by_cases h : s.contains x
  · rw [setAdd, if_pos h]
    have hx : x ∈ s := by simpa using h
    constructor
    · exact Or.inl
    · rintro (hy | rfl)
      · exact hy
      · exact hx
  · rw [setAdd, if_neg h]
    simp

theorem setAdd_of_mem {s : List Int} {x : Int} (h : x ∈ s) : setAdd s x = s := by
  rw [setAdd, if_pos (by simpa using h)]

theorem addTargets_some_lookup (a : Message) (l : Library) :
    ∀ (keys s s' : List Int), addTargets a l keys s = some s' →
      ∀ k ∈ keys, ∃ b, List.lookup k l = some b := by
  intro keys
  induction keys with
  | nil => intro s s' _ k hk; exact absurd hk (List.not_mem_nil _)
  | cons bid rest ih =>
    intro s s' h k hk
    rw [addTargets] at h
    rcases hb : List.lookup bid l with _ | vb
    · rw [hb] at h
      cases h
    · simp only [hb] at h
      rcases List.mem_cons.mp hk with rfl | hkr
      · exact ⟨vb, hb⟩
      · exact ih _ _ h k hkr

theorem addTargets_mem (a : Message) (l : Library) :
    ∀ (keys s s' : List Int), addTargets a l keys s = some s' →
      ∀ x, (x ∈ s' ↔
        x ∈ s ∨ (x ∈ keys ∧ ∃ b, List.lookup x l = some b ∧ causal a b = true)) := by
  intro keys
  induction keys with
  | nil =>
    intro s s' h x
    rw [addTargets] at h
    cases h
    simp
  | cons bid rest ih =>
    intro s s' h x
    rw [addTargets] at h
    rcases hb : List.lookup bid l with _ | b
    · rw [hb] at h
      cases h
    · simp only [hb] at h
      have hx := ih _ _ h x
      constructor
      · intro hxs'
        rcases hx.mp hxs' with hx1 | ⟨hxr, hbx⟩
        · by_cases hc : causal a b
          · rw [if_pos hc] at hx1
            rcases mem_setAdd.mp hx1 with hxs | rfl
            · exact Or.inl hxs
            · exact Or.inr ⟨List.mem_cons_self _ _, b, hb, hc⟩
          · rw [if_neg hc] at hx1
            exact Or.inl hx1
        · exact Or.inr ⟨List.mem_cons_of_mem _ hxr, hbx⟩
      · intro hrhs
        rcases hrhs with hxs | ⟨hxk, b', hb', hc'⟩
        · apply hx.mpr
          left
          by_cases hc : causal a b
          · rw [if_pos hc]
            exact mem_setAdd.mpr (Or.inl hxs)
          · rw [if_neg hc]
            exact hxs
        · rcases List.mem_cons.mp hxk with rfl | hxr
          · rw [hb] at hb'
            cases hb'
            apply hx.mpr
            left
            rw [if_pos hc']
            exact mem_setAdd.mpr (Or.inr rfl)
          · exact hx.mpr (Or.inr ⟨hxr, b', hb', hc'⟩)

theorem addTargets_fixed (a : Message) (l : Library) :
    ∀ (keys s : List Int),
      (∀ k ∈ keys, ∃ b, List.lookup k l = some b) →
      (∀ k ∈ keys, ∀ b, List.lookup k l = some b → causal a b = true → k ∈ s) →
      addTargets a l keys s = some s := by
  intro keys
  induction keys with
  | nil => intro s _ _; rw [addTargets]
  | cons bid rest ih =>
    intro s hval hmem
    obtain ⟨b, hb⟩ := hval bid (List.mem_cons_self _ _)
    rw [addTargets]
    simp only [hb]
    by_cases hc : causal a b
    · rw [if_pos hc, setAdd_of_mem (hmem bid (List.mem_cons_self _ _) b hb hc)]
      exact ih s (fun k hk => hval k (List.mem_cons_of_mem _ hk))
        (fun k hk => hmem k (List.mem_cons_of_mem _ hk))
    · rw [if_neg hc]
      exact ih s (fun k hk => hval k (List.mem_cons_of_mem _ hk))
        (fun k hk => hmem k (List.mem_cons_of_mem _ hk))

theorem buildRows_keys (keys : List Int) (l : Library) :
    ∀ (rows rows' : Graph), buildRows keys l rows = some rows' →
      rows'.map Prod.fst = rows.map Prod.fst := by
  intro rows
  induction rows with
  | nil =>
    intro rows' h
    rw [buildRows] at h
    cases h
    rfl
  | cons p rest ih =>
    obtain ⟨a_id, s⟩ := p
    intro rows' h
    rw [buildRows] at h
    rcases ha : List.lookup a_id l with _ | a
    · rw [ha] at h
      cases h
    · simp only [ha] at h
      rcases hadd : addTargets a l keys s with _ | s'
      · rw [hadd] at h
        cases h
      · simp only [hadd] at h
        rcases hrest : buildRows keys l rest with _ | rest'
        · rw [hrest] at h
          cases h
        · simp only [hrest] at h
          cases h
          simp [ih rest' hrest]

theorem buildRows_lookup (keys : List Int) (l : Library) :
    ∀ (rows rows' : Graph), buildRows keys l rows = some rows' →
      ∀ (a_id : Int) (s : List Int), List.lookup a_id rows = some s →
        ∃ a s', List.lookup a_id l = some a ∧ addTargets a l keys s = some s'
          ∧ List.lookup a_id rows' = some s' := by
  intro rows
  induction rows with
  | nil =>
    intro rows' _ a_id s hs
    rw [List.lookup] at hs
    cases hs
  | cons p rest ih =>
    obtain ⟨b_id, sb⟩ := p
    intro rows' h a_id s hs
    rw [buildRows] at h
    rcases hb : List.lookup b_id l with _ | b
    · rw [hb] at h
      cases h
    · simp only [hb] at h
      rcases hadd : addTargets b l keys sb with _ | sb'
      · rw [hadd] at h
        cases h
      · simp only [hadd] at h
        rcases hrest : buildRows keys l rest with _ | rest'
        · rw [hrest] at h
          cases h
        · simp only [hrest] at h
          cases h
          rw [List.lookup] at hs
          rcases hab : a_id == b_id with _ | _
          · rw [hab] at hs
            obtain ⟨a, s', ha, hadd', hlook⟩ := ih rest' hrest a_id s hs
            refine ⟨a, s', ha, hadd', ?_⟩
            rw [List.lookup, hab]
            exact hlook
          · rw [hab] at hs
            cases hs
            have hab' : a_id = b_id := by simpa using hab
            subst hab'
            refine ⟨b, sb', hb, hadd, ?_⟩
            rw [List.lookup, hab]

theorem buildRows_idem (keys : List Int) (l : Library)
    (hval : ∀ k ∈ keys, ∃ b, List.lookup k l = some b) :
    ∀ (rows rows' : Graph), buildRows keys l rows = some rows' →
      buildRows keys l rows' = some rows' := by
  intro rows
  induction rows with
  | nil =>
    intro rows' h
    rw [buildRows] at h
    cases h
    rw [buildRows]
  | cons p rest ih =>
    obtain ⟨a_id, s⟩ := p
    intro rows' h
    rw [buildRows] at h
    rcases ha : List.lookup a_id l with _ | a
    · rw [ha] at h
      cases h
    · simp only [ha] at h
      rcases hadd : addTargets a l keys s with _ | s'
      · rw [hadd] at h
        cases h
      · simp only [hadd] at h
        rcases hrest : buildRows keys l rest with _ | rest'
        · rw [hrest] at h
          cases h
        · simp only [hrest] at h
          cases h
          rw [buildRows]
          simp only [ha]
          have hfix : addTargets a l keys s' = some s' :=
            addTargets_fixed a l keys s' hval
              (fun k hk b hb hc => (addTargets_mem a l keys s s' hadd k).mpr
                (Or.inr ⟨hk, b, hb, hc⟩))
          simp only [hfix]
          rw [ih rest' hrest]

theorem build_relationships_lookup_keys (g : Graph) (l : Library) (g1 : Graph)
    (h : build_relationships g l = some g1) :
    ∀ k ∈ g.map Prod.fst, ∃ b, List.lookup k l = some b := by
  rw [build_relationships] at h
  cases g with
  | nil => intro k hk; exact absurd hk (by simp)
  | cons p rest =>
    obtain ⟨a_id, s⟩ := p
    rw [buildRows] at h
    rcases ha : List.lookup a_id l with _ | a
    · rw [ha] at h
      cases h
    · simp only [ha] at h
      rcases hadd : addTargets a l (((a_id, s) :: rest).map Prod.fst) s with _ | s'
      · rw [hadd] at h
        cases h
      · exact addTargets_some_lookup a l _ s s' hadd


/-! ## Helper lemmas: the sequence projector -/

theorem projectStep_mem (w : List Int) (acc : List (List Int)) (s x : List Int) :
    x ∈ projectStep w acc s ↔
      x ∈ acc ∨ (x = s.filter (fun id => w.contains id) ∧ 1 < x.length) := by
  simp only [projectStep]
  split_ifs with hc
  · rw [List.mem_append, List.mem_singleton]
    constructor
    · rintro (h | rfl)
      · exact Or.inl h
      · exact Or.inr ⟨rfl, hc.1⟩
    · rintro (h | ⟨rfl, _⟩)
      · exact Or.inl h
      · exact Or.inr rfl
  · push_neg at hc
    constructor
    · exact Or.inl
    · rintro (h | ⟨rfl, hl⟩)
      · exact h
      · exact hc hl

theorem projectStep_nodup (w : List Int) (acc : List (List Int)) (s : List Int)
    (h : acc.Nodup) : (projectStep w acc s).Nodup := by
  simp only [projectStep]
  split_ifs with hc
  · simp [List.nodup_append, h]
    simpa using hc.2
  · exact h

theorem foldl_projectStep_mem (w : List Int) :
    ∀ (seqs acc : List (List Int)) (x : List Int),
      x ∈ seqs.foldl (projectStep w) acc ↔
        x ∈ acc ∨ ∃ s ∈ seqs, x = s.filter (fun id => w.contains id) ∧ 1 < x.length := by
  intro seqs
  induction seqs with
  | nil => intro acc x; simp
  | cons s rest ih =>
    intro acc x
    rw [List.foldl_cons, ih, projectStep_mem]
    constructor
    · rintro ((hx | ⟨rfl, hl⟩) | ⟨s', hs', heq, hl⟩)
      · exact Or.inl hx
      · exact Or.inr ⟨s, List.mem_cons_self _ _, rfl, hl⟩
      · exact Or.inr ⟨s', List.mem_cons_of_mem _ hs', heq, hl⟩
    · rintro (hx | ⟨s', hs', heq, hl⟩)
      · exact Or.inl (Or.inl hx)
      · rcases List.mem_cons.mp hs' with rfl | hr
        · exact Or.inl (Or.inr ⟨heq, hl⟩)
        · exact Or.inr ⟨s', hr, heq, hl⟩

theorem project_collect_mem (seqs : List (List Int)) (w : List Int) (x : List Int) :
    x ∈ project_collect seqs w ↔
      ∃ s ∈ seqs, x = s.filter (fun id => w.contains id) ∧ 1 < x.length := by
  rw [project_collect, foldl_projectStep_mem]
  simp

theorem project_collect_nodup (seqs : List (List Int)) (w : List Int) :
    (project_collect seqs w).Nodup := by
  rw [project_collect]
  have aux : ∀ (ss acc : List (List Int)), acc.Nodup →
      (ss.foldl (projectStep w) acc).Nodup := by
    intro ss
    induction ss with
    | nil => intro acc h; simpa
    | cons s rest ih =>
      intro acc h
      rw [List.foldl_cons]
      exact ih _ (projectStep_nodup w acc s h)
  exact aux seqs [] List.nodup_nil

theorem filter_len_orderedInsert (n : Nat) (x : List Int) :
    ∀ acc : List (List Int),
      (List.orderedInsert lenLE x acc).filter (fun s => s.length == n)
        = if x.length = n then x :: acc.filter (fun s => s.length == n)
          else acc.filter (fun s => s.length == n) := by
  intro acc
  induction acc with
  | nil =>
    by_cases h : x.length = n <;> simp [List.orderedInsert, h]
  | cons y ys ih =>
    rw [List.orderedInsert]
    by_cases hr : lenLE x y
    · rw [if_pos hr]
      by_cases h : x.length = n <;> simp [List.filter_cons, h]
    · rw [if_neg hr]
      have hy : y.length < x.length := by
        simpa [lenLE, Nat.not_le] using hr
      by_cases h : x.length = n
      · have hyn : ¬(y.length = n) := by omega
        simp [List.filter_cons, hyn, ih, h]
      · by_cases hyn : y.length = n <;> simp [List.filter_cons, hyn, ih, h]

theorem filter_len_insertionSort (n : Nat) :
    ∀ l : List (List Int),
      (List.insertionSort lenLE l).filter (fun s => s.length == n)
        = l.filter (fun s => s.length == n) := by
  intro l
  induction l with
  | nil => rfl
  | cons a l ih =>
    rw [List.insertionSort, filter_len_orderedInsert]
    by_cases h : a.length = n
    · rw [if_pos h, ih]
      simp [List.filter_cons, h]
    · rw [if_neg h, ih]
      simp [List.filter_cons, h]

/-! ## Claim theorems -/

/-- Claim C1: `causal(a, b)` is true iff all five conditions hold (not
RESPONSE-then-REQUEST, destination = origin, `a` not FINAL, `b` not INITIAL,
distinct ids); operation names are not compared; `causal` is irreflexive and
is false whenever destinations mismatch, `a` is FINAL, or `b` is INITIAL. -/
theorem claim_C1 :
    (∀ a b : Message,
      causal a b = true ↔
        (¬(a.direction = Direction.RESP ∧ b.direction = Direction.REQ)
          ∧ a.destination = b.origin
          ∧ a.position ≠ Position.FINAL
          ∧ b.position ≠ Position.INITIAL
          ∧ a.id ≠ b.id))
    ∧ (∀ (a b : Message) (op₁ op₂ : String),
        causal ⟨a.id, a.origin, a.destination, op₁, a.direction, a.position⟩
          ⟨b.id, b.origin, b.destination, op₂, b.direction, b.position⟩ = causal a b)
    ∧ (∀ m : Message, causal m m = false)
    ∧ (∀ a b : Message, a.destination ≠ b.origin → causal a b = false)
    ∧ (∀ a b : Message, a.position = Position.FINAL → causal a b = false)
    ∧ (∀ a b : Message, b.position = Position.INITIAL → causal a b = false) := by
  refine ⟨fun a b => ?_, fun a b op₁ op₂ => rfl, fun m => ?_, fun a b h => ?_,
    fun a b h => ?_, fun a b h => ?_⟩
  · simp [causal, not_or]
    tauto
  · simp [causal]
  · simp [causal, h]
  · simp [causal, h]
  · simp [causal, h]

/-- Claim C1 witness: the theorem's hypothesis-bearing conjuncts discharged
at concrete messages. -/
theorem claim_C1_witness :
    causal ⟨1, "X", "Y", "a", Direction.REQ, Position.INITIAL⟩
        ⟨2, "Q", "R", "b", Direction.REQ, Position.FINAL⟩ = false
      ∧ causal ⟨1, "X", "Y", "a", Direction.REQ, Position.FINAL⟩
        ⟨2, "Y", "R", "b", Direction.REQ, Position.FINAL⟩ = false
      ∧ causal ⟨1, "X", "Y", "a", Direction.REQ, Position.INITIAL⟩
        ⟨2, "Y", "R", "b", Direction.REQ, Position.INITIAL⟩ = false :=
  ⟨claim_C1.2.2.2.1 _ _ (by decide),
   claim_C1.2.2.2.2.1 _ _ (by decide),
   claim_C1.2.2.2.2.2 _ _ (by decide)⟩

/-- Claim C6: `pair_filter(s, a, b)` is true exactly when either neither id
occurs, or both occur and the first occurrence of `a` is immediately
followed by the first occurrence of `b`; when exactly one occurs it is
false. -/
theorem claim_C6 (s : List Int) (a b : Int) :
    (pair_filter s a b = true ↔
      ((a ∉ s ∧ b ∉ s) ∨ (a ∈ s ∧ b ∈ s ∧ listIndex s a + 1 = listIndex s b)))
    ∧ ((a ∈ s ∧ b ∉ s) ∨ (a ∉ s ∧ b ∈ s) → pair_filter s a b = false) := by
  by_cases ha : a ∈ s <;> by_cases hb : b ∈ s <;>
    simp [pair_filter, ha, hb]

/-- Claim C6 witness: the exactly-one-occurs hypothesis discharged at a
concrete sequence and pair. -/
theorem claim_C6_witness : pair_filter [5, 7] 5 9 = false :=
  (claim_C6 [5, 7] 5 9).2 (Or.inl (by decide))

/-- Claim C10: with a degenerate pair `(a, a)`, `pair_filter` returns false
whenever `a` occurs in the sequence (the adjacency test would need
`index(a) + 1 = index(a)`) and true whenever `a` does not occur. -/
theorem claim_C10 (s : List Int) (a : Int) :
    (a ∈ s → pair_filter s a a = false) ∧ (a ∉ s → pair_filter s a a = true) := by
  constructor
  · intro ha
    simp [pair_filter, ha]
  · intro ha
    simp [pair_filter, ha]

/-- Claim C10 witness: both hypotheses discharged at concrete inputs. -/
theorem claim_C10_witness :
    pair_filter [4, 6] 4 4 = false ∧ pair_filter [4, 6] 9 9 = true :=
  ⟨(claim_C10 [4, 6] 4).1 (by decide), (claim_C10 [4, 6] 9).2 (by decide)⟩

/-- Claim C2: every sequence produced by `build_sequences` (and hence by
`generate_all_sequences`) has pairwise-distinct elements: no message id
occurs twice in a single produced sequence. -/
theorem claim_C2 :
    (∀ (start d : Int) (g : Graph) (l : Library) (out : List (List Int)),
      build_sequences start d g l = some out → ∀ s ∈ out, s.Nodup)
    ∧ (∀ (l : Library) (g : Graph) (d : Int) (out : List (List Int)),
      generate_all_sequences l g d = some out → ∀ s ∈ out, s.Nodup) := by
  constructor
  · intro start d g l out h s hs
    exact (rbsFuel_inv d g l _ start [] out List.nodup_nil h s hs).1
  · intro l g d out h s hs
    obtain ⟨k, _, msg, _, _, o, ho, hso⟩ := gasLoop_mem l g d _ out h s hs
    exact (rbsFuel_inv d g l _ k [] o List.nodup_nil ho s hso).1

/-- Claim C2 witness: the distinctness conclusion at a concrete run. -/
theorem claim_C2_witness : ([1, 2] : List Int).Nodup :=
  claim_C2.1 1 2 exGraph exLibrary [[1, 2]] (by decide) [1, 2] (by decide)

/-- Claim C3: every sequence produced with depth parameter `k` has length at
most `k`; the bound is inclusive — a concrete run emits a sequence of
exactly `k` messages. -/
theorem claim_C3 :
    (∀ (start k : Int) (g : Graph) (l : Library) (out : List (List Int)),
      build_sequences start k g l = some out → ∀ s ∈ out, (s.length : Int) ≤ k)
    ∧ (∀ (l : Library) (g : Graph) (k : Int) (out : List (List Int)),
      generate_all_sequences l g k = some out → ∀ s ∈ out, (s.length : Int) ≤ k)
    ∧ (∃ (out : List (List Int)) (s : List Int),
        generate_all_sequences exLibrary exGraph 2 = some out ∧ s ∈ out
          ∧ (s.length : Int) = 2) := by
  refine ⟨?_, ?_, [[1, 2]], [1, 2], by decide, by decide, by decide⟩
  · intro start k g l out h s hs
    exact (rbsFuel_inv k g l _ start [] out List.nodup_nil h s hs).2.1
  · intro l g k out h s hs
    obtain ⟨k', _, msg, _, _, o, ho, hso⟩ := gasLoop_mem l g k _ out h s hs
    exact (rbsFuel_inv k g l _ k' [] o List.nodup_nil ho s hso).2.1

/-- Claim C3 witness: the depth bound at a concrete run. -/
theorem claim_C3_witness : (([1, 2] : List Int).length : Int) ≤ 2 :=
  claim_C3.1 1 2 exGraph exLibrary [[1, 2]] (by decide) [1, 2] (by decide)

/-- Claim C4: every sequence produced by `generate_all_sequences` starts at
the id of an INITIAL-position message and ends at the id of a FINAL-position
message; moreover a FINAL message is emitted as a leaf even if the graph
records outgoing edges from it (the graph argument is arbitrary in the
second conjunct). -/
theorem claim_C4 :
    (∀ (l : Library) (g : Graph) (d : Int) (out : List (List Int)),
      generate_all_sequences l g d = some out → ∀ s ∈ out,
        ∃ h₁ z, s.head? = some h₁ ∧ s.getLast? = some z
          ∧ (∃ mh, List.lookup h₁ l = some mh ∧ mh.position = Position.INITIAL)
          ∧ (∃ mz, List.lookup z l = some mz ∧ mz.position = Position.FINAL))
    ∧ (∀ (id : Int) (acc : List Int) (d : Int) (g : Graph) (l : Library) (m : Message),
      acc.contains id = false → ((acc ++ [id]).length : Int) ≤ d →
      List.lookup id l = some m → m.position = Position.FINAL →
      recursive_build_sequences id acc d g l = some [acc ++ [id]]) := by
  constructor
  · intro l g d out h s hs
    obtain ⟨k, _, msg, hkl, hki, o, ho, hso⟩ := gasLoop_mem l g d _ out h s hs
    obtain ⟨_, _, ⟨t, ht⟩, z, m, hz, hzl, hzf⟩ :=
      rbsFuel_inv d g l _ k [] o List.nodup_nil ho s hso
    subst ht
    exact ⟨k, z, rfl, hz, ⟨msg, hkl, hki⟩, ⟨m, hzl, hzf⟩⟩
  · intro id acc d g l m hcon hlen hl hf
    rw [recursive_build_sequences, rbsFuel]
    rw [if_neg (by rw [hcon]; exact Bool.false_ne_true)]
    rw [if_neg (not_lt.mpr hlen)]
    simp only [hl]
    rw [if_pos hf]

/-- Claim C4 witness: the shape conclusion at a concrete run, and the
FINAL-leaf behaviour on a graph where the FINAL message has an outgoing
edge. -/
theorem claim_C4_witness :
    (∃ h₁ z, ([1, 2] : List Int).head? = some h₁ ∧ ([1, 2] : List Int).getLast? = some z
      ∧ (∃ mh, List.lookup h₁ exLibrary = some mh ∧ mh.position = Position.INITIAL)
      ∧ (∃ mz, List.lookup z exLibrary = some mz ∧ mz.position = Position.FINAL))
    ∧ recursive_build_sequences 2 [1] 2 [(1, [2]), (2, [1])] exLibrary = some [[1, 2]] :=
  ⟨claim_C4.1 exLibrary exGraph 2 [[1, 2]] (by decide) [1, 2] (by decide),
   claim_C4.2 2 [1] 2 [(1, [2]), (2, [1])] exLibrary
     ⟨2, "Y", "X", "login-ack", Direction.RESP, Position.FINAL⟩
     (by decide) (by decide) (by decide) (by decide)⟩

/-- Claim C8: degenerate enumeration inputs yield an empty result set and no
error: `generate_all_sequences` returns the empty list when `max_depth <= 0`,
when the library is empty, and when no library message has position INITIAL
(for every depth and graph); and `build_sequences` returns the empty list
for every start id when `max_depth <= 0`. -/
theorem claim_C8 :
    (∀ (l : Library) (g : Graph) (d : Int), d ≤ 0 →
      generate_all_sequences l g d = some [])
    ∧ (∀ (g : Graph) (d : Int), generate_all_sequences [] g d = some [])
    ∧ (∀ (l : Library) (g : Graph) (d : Int),
        (∀ p ∈ l, (Prod.snd p).position ≠ Position.INITIAL) →
        generate_all_sequences l g d = some [])
    ∧ (∀ (start d : Int) (g : Graph) (l : Library), d ≤ 0 →
        build_sequences start d g l = some []) := by
  refine ⟨?_, fun g d => rfl, ?_, fun start d g l hd => bs_depth_nonpos start d g l hd⟩
  · intro l g d hd
    rw [generate_all_sequences]
    exact gasLoop_empty_of l g d (fun k msg _ _ => bs_depth_nonpos k d g l hd) _
      (fun k hk => lookup_of_mem_keys k l hk)
  · intro l g d hno
    rw [generate_all_sequences]
    exact gasLoop_no_initial l g d hno _ (fun k hk => lookup_of_mem_keys k l hk)

/-- Claim C8 witness: each degenerate input at concrete values. -/
theorem claim_C8_witness :
    generate_all_sequences exLibrary exGraph (-3) = some []
      ∧ generate_all_sequences
          [(2, ⟨2, "Y", "X", "login-ack", Direction.RESP, Position.FINAL⟩)]
          [(2, [])] 5 = some []
      ∧ build_sequences 1 0 exGraph exLibrary = some [] :=
  ⟨claim_C8.1 exLibrary exGraph (-3) (by decide),
   claim_C8.2.2.1 [(2, ⟨2, "Y", "X", "login-ack", Direction.RESP, Position.FINAL⟩)]
     [(2, [])] 5 (by decide),
   claim_C8.2.2.2 1 0 exGraph exLibrary (by decide)⟩

/-- Claim C9: an unknown identifier surfaces as a key-not-found error
(`none`), never masked: the recursive builder raises it whenever a visited
id with remaining depth budget is absent from the library (so any id
reached through graph edges raises it too), `build_sequences` raises it for
an absent start id when the depth allows the lookup to be reached, and
`build_relationships` raises it when a graph key is absent from the
library.  The `Option` result model returns no partial result set alongside
the error. -/
theorem claim_C9 :
    (∀ (id : Int) (acc : List Int) (d : Int) (g : Graph) (l : Library),
      acc.contains id = false → ((acc ++ [id]).length : Int) ≤ d →
      List.lookup id l = none → recursive_build_sequences id acc d g l = none)
    ∧ (∀ (start d : Int) (g : Graph) (l : Library), 0 < d →
      List.lookup start l = none → build_sequences start d g l = none)
    ∧ (∀ (id : Int) (acc : List Int) (d : Int) (g : Graph) (l : Library) (m : Message),
      acc.contains id = false → ((acc ++ [id]).length : Int) ≤ d →
      List.lookup id l = some m → m.position ≠ Position.FINAL →
      List.lookup id g = none → recursive_build_sequences id acc d g l = none)
    ∧ (∀ (g : Graph) (l : Library) (k : Int), k ∈ g.map Prod.fst →
      List.lookup k l = none → build_relationships g l = none) := by
  have h1 : ∀ (id : Int) (acc : List Int) (d : Int) (g : Graph) (l : Library),
      acc.contains id = false → ((acc ++ [id]).length : Int) ≤ d →
      List.lookup id l = none → recursive_build_sequences id acc d g l = none := by
    intro id acc d g l hcon hlen hl
    rw [recursive_build_sequences, rbsFuel]
    rw [if_neg (by rw [hcon]; exact Bool.false_ne_true)]
    rw [if_neg (not_lt.mpr hlen)]
    simp only [hl]
  refine ⟨h1, ?_, ?_, ?_⟩
  · intro start d g l hd hl
    exact h1 start [] d g l rfl (by simp; omega) hl
  · intro id acc d g l m hcon hlen hl hf hg
    rw [recursive_build_sequences, rbsFuel]
    rw [if_neg (by rw [hcon]; exact Bool.false_ne_true)]
    rw [if_neg (not_lt.mpr hlen)]
    simp only [hl]
    rw [if_neg hf]
    simp only [hg]
  · intro g l k hk hnone
    rw [build_relationships]
    cases g with
    | nil => simp at hk
    | cons row rest =>
      rw [buildRows]
      rcases ha : List.lookup row.fst l with _ | a
      · rfl
      · simp only [ha]
        rw [addTargets_none a l _ row.snd k hk hnone]
  
/-- Claim C9 witness: each error case at concrete inputs. -/
theorem claim_C9_witness :
    recursive_build_sequences 7 [] 2 exGraph exLibrary = none
      ∧ build_sequences 7 2 exGraph exLibrary = none
      ∧ recursive_build_sequences 1 [] 2 [] exLibrary = none
      ∧ build_relationships [(9, [])] exLibrary = none :=
  ⟨claim_C9.1 7 [] 2 exGraph exLibrary (by decide) (by decide) (by decide),
   claim_C9.2.1 7 2 exGraph exLibrary (by decide) (by decide),
   claim_C9.2.2.1 1 [] 2 [] exLibrary
     ⟨1, "X", "Y", "login", Direction.REQ, Position.INITIAL⟩
     (by decide) (by decide) (by decide) (by decide) (by decide),
   claim_C9.2.2.2 [(9, [])] exLibrary 9 (by decide) (by decide)⟩

/-- Claim C7: `build_relationships` is idempotent — a second run on the
populated graph returns it unchanged — and after a run, for ids drawn from
the graph keys, `b_id` lies in `graph[a_id]` exactly when
`causal(library[a_id], library[b_id])` held or `b_id` was already
present. -/
theorem claim_C7 (graph : Graph) (library : Library) (g1 : Graph)
    (h : build_relationships graph library = some g1) :
    build_relationships g1 library = some g1
    ∧ ∀ (a_id b_id : Int) (s s1 : List Int),
        List.lookup a_id graph = some s → List.lookup a_id g1 = some s1 →
        b_id ∈ graph.map Prod.fst →
        (b_id ∈ s1 ↔
          (∃ ma mb, List.lookup a_id library = some ma
            ∧ List.lookup b_id library = some mb ∧ causal ma mb = true)
          ∨ b_id ∈ s) := by
  have hval := build_relationships_lookup_keys graph library g1 h
  constructor
  · rw [build_relationships] at h ⊢
    rw [buildRows_keys _ _ _ _ h]
    exact buildRows_idem _ _ hval _ _ h
  · intro a_id b_id s s1 hs hs1 hbk
    rw [build_relationships] at h
    obtain ⟨a, s', ha, hadd, hlook⟩ := buildRows_lookup _ _ _ _ h a_id s hs
    rw [hs1] at hlook
    cases hlook
    have hchar := addTargets_mem _ _ _ _ _ hadd b_id
    constructor
    · intro hb
      rcases hchar.mp hb with hbs | ⟨_, b, hbl, hc⟩
      · exact Or.inr hbs
      · exact Or.inl ⟨a, b, ha, hbl, hc⟩
    · intro hr
      rcases hr with ⟨ma, mb, hma, hmb, hc⟩ | hbs
      · rw [ha] at hma
        cases hma
        exact hchar.mpr (Or.inr ⟨hbk, mb, hmb, hc⟩)
      · exact hchar.mpr (Or.inl hbs)

/-- Claim C7 witness: idempotence and the membership characterisation at the
concrete scenario. -/
theorem claim_C7_witness :
    build_relationships exGraph exLibrary = some exGraph
      ∧ ((2 : Int) ∈ ([2] : List Int) ↔
          (∃ ma mb, List.lookup (1 : Int) exLibrary = some ma
            ∧ List.lookup (2 : Int) exLibrary = some mb ∧ causal ma mb = true)
          ∨ (2 : Int) ∈ ([] : List Int)) :=
  ⟨(claim_C7 exGraph0 exLibrary exGraph (by decide)).1,
   (claim_C7 exGraph0 exLibrary exGraph (by decide)).2 1 2 [] [2]
     (by decide) (by decide) (by decide)⟩

/-- Claim C5: `project_sequences` keeps, for each input sequence, the
order-preserving whitelist sub-sequence (a `filter`), discards results with
fewer than 2 elements, deduplicates by content keeping first occurrences,
and returns them sorted ascending by length with ties in first-appearance
order (the per-length slices of the output equal those of the pre-sort
accumulation); as a Lean function it is by construction a pure function of
its inputs. -/
theorem claim_C5 (seqs : List (List Int)) (w : List Int) :
    (∀ t ∈ project_sequences seqs w,
      2 ≤ t.length ∧ ∃ s ∈ seqs, t = s.filter (fun id => w.contains id))
    ∧ (∀ s ∈ seqs, 2 ≤ (s.filter (fun id => w.contains id)).length →
        s.filter (fun id => w.contains id) ∈ project_sequences seqs w)
    ∧ (project_sequences seqs w).Nodup
    ∧ (project_sequences seqs w).Sorted lenLE
    ∧ (project_sequences seqs w).Perm (project_collect seqs w)
    ∧ (∀ n : Nat, (project_sequences seqs w).filter (fun s => s.length == n)
        = (project_collect seqs w).filter (fun s => s.length == n)) := by
  have hperm : (project_sequences seqs w).Perm (project_collect seqs w) :=
    List.perm_insertionSort lenLE _
  refine ⟨?_, ?_, ?_, ?_, hperm, ?_⟩
  · intro t ht
    obtain ⟨s, hmem, heq, hlen⟩ :=
      (project_collect_mem seqs w t).mp (hperm.mem_iff.mp ht)
    exact ⟨hlen, s, hmem, heq⟩
  · intro s hs hlen
    rw [project_sequences]
    rw [List.mem_insertionSort]
    exact (project_collect_mem seqs w _).mpr ⟨s, hs, rfl, hlen⟩
  · exact hperm.nodup_iff.mpr (project_collect_nodup seqs w)
  · exact List.sorted_insertionSort lenLE _
  · intro n
    rw [project_sequences]
    exact filter_len_insertionSort n _

/-- Claim C5 witness: the keep-everything-valid conjunct discharged at a
concrete projection. -/
theorem claim_C5_witness :
    ([1, 2, 3] : List Int).filter (fun id => [1, 2, 3].contains id) ∈
      project_sequences [[1, 2, 3], [2, 3], [1, 3]] [1, 2, 3] :=
  (claim_C5 [[1, 2, 3], [2, 3], [1, 3]] [1, 2, 3]).2.1 [1, 2, 3]
    (by decide) (by decide)
